import Mathlib

/-!
Verification of the osquery SQLite utility layer (`osquery/sql/sqlite_util.h`).

The repository ships the header only, so the data model and the bodies of the
declared operations are embedded here. Wherever a body is not present in the
header, the corresponding Lean definition is marked `Modelled from the spec:`
and follows the specification's description of that operation.
-/

namespace Osquery

/-- Modelled from the spec: result-column type enumeration
`{TEXT, INTEGER, BIGINT, DOUBLE, BLOB, UNKNOWN}` (the `ColumnType` enum is
declared in `osquery/sql.h`, which is not part of this repository snapshot). -/
inductive ColumnType where
  | UNKNOWN_TYPE
  | TEXT_TYPE
  | INTEGER_TYPE
  | BIGINT_TYPE
  | DOUBLE_TYPE
  | BLOB_TYPE
deriving DecidableEq, Repr

/-- Decide whether a column type is the unresolved marker. -/
def ColumnType.isUnknown : ColumnType → Bool
  | .UNKNOWN_TYPE => true
  | _ => false

/-- Modelled from the spec: a `Status` carries success or failure, failure
holding an engine-provided diagnostic message (`osquery::Status` is declared
outside this repository snapshot). -/
inductive Status where
  | success
  | failure (message : String)
deriving DecidableEq, Repr

/-- Modelled from the spec: a result row is an ordered mapping from column
name to string-serialized value. -/
abbrev Row := List (String × String)

/-! ### Disabled-table registry -/

/-- Split a character list on commas; pieces keep their order. -/
def splitOnCommas : List Char → List (List Char)
  | [] => [[]]
  | c :: rest =>
    if c = ',' then [] :: splitOnCommas rest
    else
      match splitOnCommas rest with
      | [] => [[c]]
      | p :: r => (c :: p) :: r

/-- Whitespace test used when trimming flag entries. -/
def isSpaceChar (c : Char) : Bool :=
  c = ' ' || c = '\t' || c = '\n' || c = '\r'

/-- Drop surrounding whitespace from a character list. -/
def trimChars (l : List Char) : List Char :=
  ((l.dropWhile isSpaceChar).reverse.dropWhile isSpaceChar).reverse

/-- Modelled from the spec: the body of
`SQLiteDBManager::parseDisableTablesFlag` (declared at `sqlite_util.h:142`) is
not in the header; the spec says the comma-delimited flag string is split on
commas, each piece is trimmed of surrounding whitespace, and empty pieces are
dropped. -/
def parseDisableTablesFlag (s : String) : List String :=
  (((splitOnCommas s.toList).map trimChars).filter (fun p => p ≠ [])).map
    (fun l => String.mk l)

/-- Modelled from the spec: `SQLiteDBManager::isDisabled` (declared at
`sqlite_util.h:114`) is a pure membership query of the table name against the
parsed disabled-table set, exact and case-sensitive. -/
def isDisabled (disabled_tables_ : List String) (table_name : String) : Bool :=
  disabled_tables_.contains table_name

/-! ### Instances and the connection manager -/

/-- Embedded from `SQLiteDBInstance` (`sqlite_util.h:39-66`): the lease holds
an `isPrimary` introspection flag `primary_` (default `false`) and a database
handle `db_` (default null, here `none`); engine handles are modelled as
numeric identifiers. -/
structure SQLiteDBInstance where
  primary_ : Bool := false
  db_ : Option Nat := none
deriving DecidableEq, Repr

/-- Embedded from `SQLiteDBInstance::isPrimary` (`sqlite_util.h:46`):
returns `primary_`. -/
def SQLiteDBInstance.isPrimary (i : SQLiteDBInstance) : Bool := i.primary_

/-- Embedded from `SQLiteDBInstance::db` (`sqlite_util.h:55`): accessor to
the internal handle. -/
def SQLiteDBInstance.db (i : SQLiteDBInstance) : Option Nat := i.db_

/-- Modelled from the spec: `SQLiteDBInstance::init` (declared at
`sqlite_util.h:49`) generates a new transient connection: it opens a fresh
ephemeral engine handle and stores it in `db_`, touching nothing else. -/
def SQLiteDBInstance.init (fresh : Nat) (i : SQLiteDBInstance) : SQLiteDBInstance :=
  { i with db_ := some fresh }

/-- Modelled from the spec: the manager singleton's state. `lockHeld` is the
primary-access mutex `mutex_` (`sqlite_util.h:133`), `live` the currently
live leases keyed by a lease identifier, `nextLease`/`nextConn` fresh-name
counters; the primary engine handle is handle `0`. -/
structure ManagerState where
  lockHeld : Bool := false
  live : List (Nat × SQLiteDBInstance) := []
  nextLease : Nat := 0
  nextConn : Nat := 1
deriving DecidableEq, Repr

/-- Initial manager state: mutex free, no live leases. -/
def initialManager : ManagerState := {}

/-- Embedded from the default constructor `SQLiteDBInstance()`
(`sqlite_util.h:41`): it only calls `init()`, so the result starts from the
field defaults (`primary_ = false`, `db_ = nullptr`) and then opens a fresh
ephemeral connection; the manager's mutex is neither tested nor acquired, so
the manager state passes through except for the fresh-handle counter. -/
def SQLiteDBInstance.defaultCtor (m : ManagerState) : SQLiteDBInstance × ManagerState :=
  (SQLiteDBInstance.init m.nextConn { primary_ := false, db_ := none },
   { m with nextConn := m.nextConn + 1 })

/-- Modelled from the spec: `SQLiteDBManager::get` (declared at
`sqlite_util.h:100`) attempts a non-blocking acquisition of the primary
mutex; on success it returns a primary lease on the managed handle `0`; when
the mutex is already held it opens a fresh ephemeral connection and returns
it as a transient lease. It is a total function of the manager state: there
is no waiting branch. -/
def managerGet (s : ManagerState) : SQLiteDBInstance × ManagerState :=
  if s.lockHeld then
    let inst : SQLiteDBInstance := { primary_ := false, db_ := some s.nextConn }
    (inst, { s with live := (s.nextLease, inst) :: s.live,
                    nextLease := s.nextLease + 1, nextConn := s.nextConn + 1 })
  else
    let inst : SQLiteDBInstance := { primary_ := true, db_ := some 0 }
    (inst, { s with lockHeld := true, live := (s.nextLease, inst) :: s.live,
                    nextLease := s.nextLease + 1 })

/-- Modelled from the spec: `SQLiteDBManager::getUnique` (declared at
`sqlite_util.h:103`) always takes the transient path, bypassing the
contention logic entirely. -/
def managerGetUnique (s : ManagerState) : SQLiteDBInstance × ManagerState :=
  let inst : SQLiteDBInstance := { primary_ := false, db_ := some s.nextConn }
  (inst, { s with live := (s.nextLease, inst) :: s.live,
                  nextLease := s.nextLease + 1, nextConn := s.nextConn + 1 })

/-- Modelled from the spec: destruction of a live lease
(`SQLiteDBInstance::~SQLiteDBInstance`, `sqlite_util.h:43`); a primary lease
releases the manager mutex via `SQLiteDBManager::unlock`
(`sqlite_util.h:117`), a transient lease closes its own connection. -/
def destroyInstance (s : ManagerState) (lease : Nat) : ManagerState :=
  match s.live.find? (fun p => p.1 = lease) with
  | none => s
  | some p =>
    { s with live := s.live.filter (fun q => q.1 ≠ lease),
             lockHeld := if p.2.primary_ then false else s.lockHeld }

/-- One caller-visible action on the manager: a `get()` call, a
`getUnique()` call, or the destruction of a live lease. -/
inductive Event where
  | get
  | getUnique
  | destroy (lease : Nat)
deriving DecidableEq, Repr

/-- Apply one event to the manager state. -/
def stepEvent (s : ManagerState) : Event → ManagerState
  | .get => (managerGet s).2
  | .getUnique => (managerGetUnique s).2
  | .destroy l => destroyInstance s l

/-- Run a sequence of events from the initial manager state. -/
def run (es : List Event) : ManagerState :=
  es.foldl stepEvent initialManager

/-- Live leases whose instance reports `isPrimary`. -/
def primaryLive (s : ManagerState) : List (Nat × SQLiteDBInstance) :=
  s.live.filter (fun p => p.2.isPrimary)

/-- Manager state invariant: lease identifiers are fresh and pairwise
distinct, at most one live primary lease exists, and a free mutex means no
live primary lease. -/
def ManagerInv (s : ManagerState) : Prop :=
  (∀ p ∈ s.live, p.1 < s.nextLease) ∧
  s.live.Pairwise (fun a b => a.1 ≠ b.1) ∧
  (primaryLive s).length ≤ 1 ∧
  (s.lockHeld = false → (primaryLive s).length = 0)

/-! ### Column metadata -/

/-- Modelled from the spec: `ColumnTypeInfo` is `{name, type}`, extended with
the declared output register captured by the column introspector as part of
the unresolved-column metadata (used by `applyTypes` for resolution). -/
structure ColumnInfo where
  name : String
  type : ColumnType
  outReg : Int
deriving DecidableEq, Repr

/-! ### Query planner -/

/-- Embedded from `QueryPlanner::Opcode::Register` (`sqlite_util.h:182-186`):
the three operand positions. -/
inductive Register where
  | P1
  | P2
  | P3
deriving DecidableEq, Repr

/-- Embedded from `QueryPlanner::Opcode` (`sqlite_util.h:181-192`): an opcode
rule is defined by an operand position and a resultant column type. -/
structure Opcode where
  reg : Register
  type : ColumnType
deriving DecidableEq, Repr

/-- Modelled from the spec: one step of the captured bytecode program:
an opcode name and three integer operands. -/
structure ProgramStep where
  opcode : String
  p1 : Int
  p2 : Int
  p3 : Int
deriving DecidableEq, Repr

/-- Read a step's operand at the given position. -/
def ProgramStep.operand (s : ProgramStep) : Register → Int
  | .P1 => s.p1
  | .P2 => s.p2
  | .P3 => s.p3

/-- Embedded from `QueryPlanner` (`sqlite_util.h:201-205`): the captured
results of the two analysis queries — `program_` (the bytecode program from
EXPLAIN) and `tables_` (the logical table scan order). -/
structure QueryPlanner where
  program_ : List ProgramStep
  tables_ : List String
deriving DecidableEq, Repr

/-- Look up the type bound to a register; the most recent binding is kept at
the front, so the first hit is the latest write. -/
def regGet (m : List (Int × ColumnType)) (r : Int) : Option ColumnType :=
  (m.find? (fun p => p.1 = r)).map (fun p => p.2)

/-- Look up a table's declared type for a column index in the attached
schema (table name mapped to its ordered declared column types). -/
def declaredType (schema : List (String × List ColumnType)) (t : String)
    (i : Nat) : Option ColumnType :=
  (schema.find? (fun p => p.1 = t)).bind (fun p => p.2.get? i)

/-- Static analysis environment for a planner walk: the process-wide
opcode-to-type rule table, the attached schema, and the planner's captured
table scan order. -/
structure PlanEnv where
  ops : List (String × Opcode)
  schema : List (String × List ColumnType)
  tables_ : List String
deriving DecidableEq, Repr

/-- Cursor-binding part of the walk state: how many table scans were opened
so far, and which cursor number is bound to which scan position. -/
structure ScanState where
  scanIdx : Nat := 0
  cursors : List (Int × Nat) := []
deriving DecidableEq, Repr

/-- Look up the table name a cursor refers to, via the scan position it was
bound to and the captured table scan order. -/
def cursorTable (env : PlanEnv) (sc : ScanState) (cursor : Int) : Option String :=
  ((sc.cursors.find? (fun p => p.1 = cursor)).map (fun p => p.2)).bind
    (fun i => env.tables_.get? i)

/-- Modelled from the spec: the effect of one bytecode step during the
single left-to-right walk. A table-reference step (`OpenRead`) binds its
cursor operand to the next table of the scan order; a column-read step
(`Column`) writes the declared type of the referenced table column to its
destination register; a type-preserving step (`Copy`) propagates the source
register's current type to the destination; any opcode present in the static
rule table writes the rule's fixed resultant type to the register named by
the rule's operand position. The returned option is the register write this
step performs, if any. -/
def processStep (env : PlanEnv) (sc : ScanState) (regs : List (Int × ColumnType))
    (s : ProgramStep) : ScanState × Option (Int × ColumnType) :=
  if s.opcode = "OpenRead" then
    ({ scanIdx := sc.scanIdx + 1, cursors := (s.p1, sc.scanIdx) :: sc.cursors }, none)
  else if s.opcode = "Column" then
    match cursorTable env sc s.p1 with
    | none => (sc, none)
    | some t =>
      match declaredType env.schema t s.p2.toNat with
      | none => (sc, none)
      | some ty => (sc, some (s.p3, ty))
  else if s.opcode = "Copy" then
    match regGet regs s.p1 with
    | none => (sc, none)
    | some ty => (sc, some (s.p2, ty))
  else
    match (env.ops.find? (fun p => p.1 = s.opcode)).map (fun p => p.2) with
    | none => (sc, none)
    | some op => (sc, some (s.operand op.reg, op.type))

/-- Modelled from the spec: the single left-to-right walk of the bytecode
program. Returns the final register-to-type map together with the ordered
trace of all register writes the walk performed, in program order; each
write is applied to the register map by prepending, so the latest write for
a register is found first by `regGet`. -/
def walkProgram (env : PlanEnv) (sc : ScanState) (regs : List (Int × ColumnType)) :
    List ProgramStep → List (Int × ColumnType) × List (Int × ColumnType)
  | [] => (regs, [])
  | s :: rest =>
    let p := processStep env sc regs s
    let regs' := match p.2 with
      | some w => w :: regs
      | none => regs
    let r := walkProgram env p.1 regs' rest
    (r.1, p.2.toList ++ r.2)

/-- Type carried by the last write of a write trace, or a default when the
trace is empty. -/
def lastWriteOr (ws : List (Int × ColumnType)) (dflt : Option ColumnType) :
    Option ColumnType :=
  match ws.getLast? with
  | some w => some w.2
  | none => dflt

/-- Final register-to-type map of the walk over a planner's captured
program. -/
def QueryPlanner.finalRegs (p : QueryPlanner) (ops : List (String × Opcode))
    (schema : List (String × List ColumnType)) : List (Int × ColumnType) :=
  (walkProgram ⟨ops, schema, p.tables_⟩ {} [] p.program_).1

/-- Ordered trace of register writes performed by the walk over a planner's
captured program. -/
def QueryPlanner.writeTrace (p : QueryPlanner) (ops : List (String × Opcode))
    (schema : List (String × List ColumnType)) : List (Int × ColumnType) :=
  (walkProgram ⟨ops, schema, p.tables_⟩ {} [] p.program_).2

/-- Modelled from the spec: end-of-walk resolution of one column. A column
that entered with type UNKNOWN has its declared output register resolved
against the final register map and its type overwritten if a binding is
found; any other column is left untouched. -/
def resolveColumn (m : List (Int × ColumnType)) (c : ColumnInfo) : ColumnInfo :=
  if c.type = ColumnType.UNKNOWN_TYPE then
    match regGet m c.outReg with
    | some t => { c with type := t }
    | none => c
  else c

/-- Modelled from the spec: `QueryPlanner::applyTypes` (declared at
`sqlite_util.h:173`). It walks the captured program once, resolves every
originally-UNKNOWN column in place against the final register map, and
returns success exactly when no UNKNOWN column remains; partially resolved
columns are kept also on an overall failure return. -/
def QueryPlanner.applyTypes (p : QueryPlanner) (ops : List (String × Opcode))
    (schema : List (String × List ColumnType)) (columns : List ColumnInfo) :
    Status × List ColumnInfo :=
  let out := columns.map (resolveColumn (p.finalRegs ops schema))
  (if out.all (fun c => !c.type.isUnknown) then Status.success
   else Status.failure "Unable to determine all column types", out)

/-- Modelled from the spec: representative entries of the static
`kSQLOpcodes` rule table (`sqlite_util.h:209`, defined outside the header):
literal-construction opcodes assign their fixed type to the register named
by the rule's operand position, casting opcodes override it. -/
def kSQLOpcodes : List (String × Opcode) :=
  [("Integer", ⟨Register.P2, ColumnType.INTEGER_TYPE⟩),
   ("Int64", ⟨Register.P2, ColumnType.BIGINT_TYPE⟩),
   ("String8", ⟨Register.P2, ColumnType.TEXT_TYPE⟩),
   ("Real", ⟨Register.P2, ColumnType.DOUBLE_TYPE⟩),
   ("Blob", ⟨Register.P2, ColumnType.BLOB_TYPE⟩),
   ("Concat", ⟨Register.P3, ColumnType.TEXT_TYPE⟩),
   ("Add", ⟨Register.P3, ColumnType.BIGINT_TYPE⟩),
   ("Multiply", ⟨Register.P3, ColumnType.BIGINT_TYPE⟩),
   ("Divide", ⟨Register.P3, ColumnType.DOUBLE_TYPE⟩)]

/-! ### Column introspection -/

/-- Modelled from the spec: the engine's answer about one result column of a
prepared statement — its name, its declared origin (a table and column
index, or no table origin for expressions, literals, aggregates and
subqueries), and its declared output register. -/
inductive ColumnOrigin where
  | fromTable (table : String) (idx : Nat)
  | noOrigin
deriving DecidableEq, Repr

/-- Modelled from the spec: per-column metadata reported by the engine for a
prepared (not executed) statement. -/
structure PreparedColumn where
  name : String
  origin : ColumnOrigin
  outReg : Int
deriving DecidableEq, Repr

/-- Modelled from the spec: introspection of a single result column. A
column originating directly from a table's schema gets the table's declared
type verbatim; a column with no table origin (or whose origin cannot be
found in the schema) is marked UNKNOWN. -/
def describeColumn (schema : List (String × List ColumnType))
    (pc : PreparedColumn) : ColumnInfo :=
  match pc.origin with
  | .fromTable t i =>
    match declaredType schema t i with
    | some ty => ⟨pc.name, ty, pc.outReg⟩
    | none => ⟨pc.name, ColumnType.UNKNOWN_TYPE, pc.outReg⟩
  | .noOrigin => ⟨pc.name, ColumnType.UNKNOWN_TYPE, pc.outReg⟩

/-- Modelled from the spec: `getQueryColumnsInternal` (declared at
`sqlite_util.h:241-243`). The engine's preparation of the query either fails
with a diagnostic (introspection fails, no columns) or yields the per-column
metadata, from which the full ordered column sequence — including UNKNOWN
entries — is produced with a success status. -/
def getQueryColumnsInternal (prepared : Except String (List PreparedColumn))
    (schema : List (String × List ColumnType)) : Status × List ColumnInfo :=
  match prepared with
  | .error e => (Status.failure e, [])
  | .ok pcs => (Status.success, pcs.map (describeColumn schema))

/-! ### Query execution and the plugin -/

/-- Modelled from the spec: `queryInternal` (declared at `sqlite_util.h:224`).
The engine's execution either yields the ordered row sequence (returned with
a success status — in particular an empty result set is success) or fails
with an engine diagnostic, which is carried on the failure status. -/
def queryInternal (exec : Except String (List Row)) : Status × List Row :=
  match exec with
  | .ok rows => (Status.success, rows)
  | .error m => (Status.failure m, [])

/-- Embedded from `SQLiteSQLPlugin::query` (`sqlite_util.h:248-251`): obtain
a lease from `SQLiteDBManager::get` and return what `queryInternal` returns
on that lease's handle. The engine-level behaviour of `queryInternal` on a
handle is abstracted as a function argument `qi`. -/
def SQLiteSQLPlugin.query (qi : String → Option Nat → Status × List Row)
    (s : ManagerState) (q : String) : (Status × List Row) × ManagerState :=
  let dbc := managerGet s
  (qi q dbc.1.db, dbc.2)

/-- Embedded from `SQLiteSQLPlugin::getQueryColumns` (`sqlite_util.h:253-256`):
obtain a lease from `SQLiteDBManager::get` and return what
`getQueryColumnsInternal` returns on that lease's handle. -/
def SQLiteSQLPlugin.getQueryColumns
    (gqc : String → Option Nat → Status × List ColumnInfo)
    (s : ManagerState) (q : String) : (Status × List ColumnInfo) × ManagerState :=
  let dbc := managerGet s
  (gqc q dbc.1.db, dbc.2)

/-- Stated from the spec (refinement side): the plugin's `query` simply
composes `get()` with `execute` — run the internal query function directly
on the handle of the lease `get()` returns. -/
def specPluginQuery (qi : String → Option Nat → Status × List Row)
    (s : ManagerState) (q : String) : Status × List Row :=
  qi q (managerGet s).1.db

/-- Stated from the spec (refinement side): the plugin's `getQueryColumns`
simply composes `get()` with `describeColumns`. -/
def specPluginGetQueryColumns
    (gqc : String → Option Nat → Status × List ColumnInfo)
    (s : ManagerState) (q : String) : Status × List ColumnInfo :=
  gqc q (managerGet s).1.db

/-! ## Theorems -/

/-- C4: `isDisabled(name)` is true iff `name` is an exact case-sensitive
member of the list obtained by splitting the configured disable-tables
string on commas, trimming surrounding whitespace from each piece and
discarding empty pieces; and the input `"a, b ,,c"` yields exactly the
disabled set `{"a", "b", "c"}`. -/
theorem isDisabled_iff_member (s table_name : String) :
    (isDisabled (parseDisableTablesFlag s) table_name = true ↔
      table_name ∈ (((splitOnCommas s.toList).map trimChars).filter
        (fun p => p ≠ [])).map (fun l => String.mk l)) ∧
    parseDisableTablesFlag "a, b ,,c" = ["a", "b", "c"] := by
  refine ⟨?_, by decide⟩
  rw [isDisabled, parseDisableTablesFlag]
  exact List.elem_iff

/-- C2: `get()` never blocks: it is a total function of the manager state
that immediately returns a primary lease exactly when the mutex is free
(acquiring it), and otherwise immediately opens a fresh ephemeral connection
and returns it as a transient lease; there is no waiting branch. -/
theorem managerGet_nonblocking (s : ManagerState) :
    (managerGet s).1.isPrimary = !s.lockHeld ∧
    (managerGet s).1.db = some (if s.lockHeld then s.nextConn else 0) ∧
    (managerGet s).2.lockHeld = true ∧
    (managerGet s).2.live = (s.nextLease, (managerGet s).1) :: s.live := by
  cases h : s.lockHeld <;>
    simp [managerGet, h, SQLiteDBInstance.isPrimary, SQLiteDBInstance.db]

/-- C10: a default-constructed `SQLiteDBInstance` is always transient:
`isPrimary()` is false, `init()` has opened a fresh ephemeral connection,
and the manager's mutex state is neither tested nor acquired (the mutex and
the live-lease list pass through unchanged, whatever they were). -/
theorem defaultCtor_transient (m : ManagerState) :
    (SQLiteDBInstance.defaultCtor m).1.isPrimary = false ∧
    (SQLiteDBInstance.defaultCtor m).1.db = some m.nextConn ∧
    (SQLiteDBInstance.defaultCtor m).2.lockHeld = m.lockHeld ∧
    (SQLiteDBInstance.defaultCtor m).2.live = m.live := by
  simp [SQLiteDBInstance.defaultCtor, SQLiteDBInstance.init,
    SQLiteDBInstance.isPrimary, SQLiteDBInstance.db]

/-- C9: the plugin operations are pure compositions: for every query, the
plugin's `query` returns exactly what `queryInternal` returns on the handle
of the lease obtained from `SQLiteDBManager::get`, and the plugin's
`getQueryColumns` returns exactly what `getQueryColumnsInternal` returns on
that handle, for every possible engine behaviour — no retries, filtering or
other behaviour is added. -/
theorem plugin_composes (qi : String → Option Nat → Status × List Row)
    (gqc : String → Option Nat → Status × List ColumnInfo)
    (s : ManagerState) (q : String) :
    (SQLiteSQLPlugin.query qi s q).1 = specPluginQuery qi s q ∧
    (SQLiteSQLPlugin.getQueryColumns gqc s q).1 = specPluginGetQueryColumns gqc s q :=
  ⟨rfl, rfl⟩

/-- C7: a query returning zero rows yields a success status together with
the empty ordered row sequence, never a failure; any successful engine
execution is reported as success; and a failure status arises only from an
engine-level error and then carries the engine-provided diagnostic. -/
theorem queryInternal_empty_success :
    queryInternal (Except.ok ([] : List Row)) = (Status.success, []) ∧
    (∀ rows : List Row, queryInternal (Except.ok rows) = (Status.success, rows)) ∧
    (∀ (exec : Except String (List Row)) (m : String),
      (queryInternal exec).1 = Status.failure m → exec = Except.error m) := by
  refine ⟨rfl, fun rows => rfl, ?_⟩
  intro exec m h
  cases exec with
  | ok rows =>
    exact absurd h (by simp [queryInternal])
  | error e =>
    simp only [queryInternal] at h
    cases h
    rfl

/-- C7 witness: the failure branch of `queryInternal_empty_success` applied
at the concrete engine error "no such table". -/
theorem queryInternal_empty_success_witness :
    (Except.error "no such table" : Except String (List Row)) =
      Except.error "no such table" :=
  queryInternal_empty_success.2.2 (Except.error "no such table") "no such table" rfl

/-! ### Manager invariant (single live primary) -/

/-- Two distinct members force a list length of at least two. -/
theorem two_le_length_of_mem_ne {α : Type} {a b : α} :
    ∀ {l : List α}, a ∈ l → b ∈ l → a ≠ b → 2 ≤ l.length := by
  intro l
  induction l with
  | nil => intro ha; cases ha
  | cons c t ih =>
    intro ha hb hne
    rcases List.mem_cons.mp ha with ha' | ha'
    · rcases List.mem_cons.mp hb with hb' | hb'
      · exact absurd (ha'.trans hb'.symm) hne
      · have := List.length_pos_of_mem hb'
        simp only [List.length_cons]
        omega
    · rcases List.mem_cons.mp hb with hb' | hb'
      · have := List.length_pos_of_mem ha'
        simp only [List.length_cons]
        omega
      · have := ih ha' hb' hne
        simp only [List.length_cons]
        omega

/-- Pairwise-distinct lease keys make the lease with a given key unique. -/
theorem pairwise_key_unique {l : List (Nat × SQLiteDBInstance)}
    (hpw : l.Pairwise (fun a b => a.1 ≠ b.1)) {a b : Nat × SQLiteDBInstance}
    (ha : a ∈ l) (hb : b ∈ l) (hk : a.1 = b.1) : a = b := by
  induction l with
  | nil => cases ha
  | cons c t ih =>
    have hpw' := List.pairwise_cons.mp hpw
    rcases List.mem_cons.mp ha with ha' | ha' <;>
      rcases List.mem_cons.mp hb with hb' | hb'
    · exact ha'.trans hb'.symm
    · exact absurd hk (ha' ▸ hpw'.1 b hb')
    · exact absurd hk.symm (hb' ▸ hpw'.1 a ha')
    · exact ih hpw'.2 ha' hb'

/-- Computation rule: `isPrimary` of a literal instance is its flag. -/
theorem isPrimary_mk (b : Bool) (d : Option Nat) :
    ({ primary_ := b, db_ := d } : SQLiteDBInstance).isPrimary = b := rfl

/-- The initial manager state satisfies the invariant. -/
theorem managerInv_initial : ManagerInv initialManager := by
  refine ⟨?_, ?_, ?_, ?_⟩ <;> simp [initialManager, primaryLive]

/-- Appending a fresh lease preserves freshness and key distinctness. -/
theorem consLease_fresh_pairwise (s : ManagerState) (inst : SQLiteDBInstance)
    (hfresh : ∀ p ∈ s.live, p.1 < s.nextLease)
    (hpw : s.live.Pairwise (fun a b => a.1 ≠ b.1)) :
    (∀ p ∈ (s.nextLease, inst) :: s.live, p.1 < s.nextLease + 1) ∧
    ((s.nextLease, inst) :: s.live).Pairwise (fun a b => a.1 ≠ b.1) := by
  constructor
  · intro p hp
    rcases List.mem_cons.mp hp with hp' | hp'
    · simp [hp']
    · have := hfresh p hp'
      omega
  · refine List.pairwise_cons.mpr ⟨?_, hpw⟩
    intro b hb
    have := hfresh b hb
    omega

/-- One manager event preserves the invariant. -/
theorem managerInv_step (s : ManagerState) (e : Event) (h : ManagerInv s) :
    ManagerInv (stepEvent s e) := by
  obtain ⟨hfresh, hpw, hle, hfree⟩ := h
  cases e with
  | get =>
    cases hl : s.lockHeld with
    | true =>
      have hstate : stepEvent s Event.get =
          { s with live := (s.nextLease, ⟨false, some s.nextConn⟩) :: s.live,
                   nextLease := s.nextLease + 1, nextConn := s.nextConn + 1 } := by
        simp [stepEvent, managerGet, hl]
      rw [hstate]
      obtain ⟨hf, hw⟩ := consLease_fresh_pairwise s ⟨false, some s.nextConn⟩ hfresh hpw
      refine ⟨hf, hw, ?_, ?_⟩
      · simpa [primaryLive, List.filter_cons, isPrimary_mk] using hle
      · intro hcontra
        simp [hl] at hcontra
    | false =>
      have hnil : s.live.filter (fun p => p.2.isPrimary) = [] :=
        List.length_eq_zero.mp (by simpa [primaryLive] using hfree hl)
      have hstate : stepEvent s Event.get =
          { s with lockHeld := true,
                   live := (s.nextLease, ⟨true, some 0⟩) :: s.live,
                   nextLease := s.nextLease + 1 } := by
        simp [stepEvent, managerGet, hl]
      rw [hstate]
      obtain ⟨hf, hw⟩ := consLease_fresh_pairwise s ⟨true, some 0⟩ hfresh hpw
      refine ⟨hf, hw, ?_, ?_⟩
      · simp [primaryLive, List.filter_cons, isPrimary_mk, hnil]
      · intro hcontra
        simp at hcontra
  | getUnique =>
    have hstate : stepEvent s Event.getUnique =
        { s with live := (s.nextLease, ⟨false, some s.nextConn⟩) :: s.live,
                 nextLease := s.nextLease + 1, nextConn := s.nextConn + 1 } := by
      simp [stepEvent, managerGetUnique]
    rw [hstate]
    obtain ⟨hf, hw⟩ := consLease_fresh_pairwise s ⟨false, some s.nextConn⟩ hfresh hpw
    refine ⟨hf, hw, ?_, ?_⟩
    · simpa [primaryLive, List.filter_cons, isPrimary_mk] using hle
    · intro hcontra
      simpa [primaryLive, List.filter_cons, isPrimary_mk] using hfree hcontra
  | destroy l =>
    show ManagerInv (destroyInstance s l)
    cases hq : s.live.find? (fun p => p.1 = l) with
    | none =>
      simp only [destroyInstance, hq]
      exact ⟨hfresh, hpw, hle, hfree⟩
    | some q =>
      have hqmem : q ∈ s.live := List.mem_of_find?_eq_some hq
      have hsub : List.Sublist
          ((s.live.filter (fun p => p.1 ≠ l)).filter (fun p => p.2.isPrimary))
          (s.live.filter (fun p => p.2.isPrimary)) :=
        List.Sublist.filter _ (List.filter_sublist s.live)
      have hstate : destroyInstance s l =
          { s with live := s.live.filter (fun p => p.1 ≠ l),
                   lockHeld := if q.2.primary_ then false else s.lockHeld } := by
        simp only [destroyInstance, hq]
      rw [hstate]
      refine ⟨?_, ?_, ?_, ?_⟩
      · intro p hp
        exact hfresh p (List.mem_of_mem_filter hp)
      · exact hpw.sublist (List.filter_sublist s.live)
      · refine le_trans ?_ (by simpa [primaryLive] using hle)
        simpa [primaryLive] using hsub.length_le
      · cases hqp : q.2.primary_ with
        | true =>
          intro _
          have hempty : (s.live.filter (fun p => p.1 ≠ l)).filter
              (fun p => p.2.isPrimary) = [] := by
            refine List.eq_nil_iff_forall_not_mem.mpr ?_
            intro x hx
            have hx1 := List.mem_filter.mp hx
            have hx2 := List.mem_filter.mp hx1.1
            have hxne : x.1 ≠ l := by simpa using hx2.2
            have hxq : x ≠ q := by
              intro hcontra
              apply hxne
              rw [hcontra]
              simpa using List.find?_some hq
            have hxp : x ∈ s.live.filter (fun p => p.2.isPrimary) :=
              List.mem_filter.mpr ⟨hx2.1, hx1.2⟩
            have hqp' : q ∈ s.live.filter (fun p => p.2.isPrimary) :=
              List.mem_filter.mpr
                ⟨hqmem, by simp [SQLiteDBInstance.isPrimary, hqp]⟩
            have h2 := two_le_length_of_mem_ne hxp hqp' hxq
            have h1 : (s.live.filter (fun p => p.2.isPrimary)).length ≤ 1 := by
              simpa [primaryLive] using hle
            omega
          show ((s.live.filter (fun p => p.1 ≠ l)).filter
            (fun p => p.2.isPrimary)).length = 0
          rw [hempty]
          rfl
        | false =>
          intro hfalse
          have hlock : s.lockHeld = false := by simpa using hfalse
          have hnil : s.live.filter (fun p => p.2.isPrimary) = [] :=
            List.length_eq_zero.mp (by simpa [primaryLive] using hfree hlock)
          have hnil' := List.sublist_nil.mp (hnil ▸ hsub)
          show ((s.live.filter (fun p => p.1 ≠ l)).filter
            (fun p => p.2.isPrimary)).length = 0
          rw [hnil']
          rfl

/-- Every event sequence from the initial state preserves the invariant. -/
theorem managerInv_run : ∀ (es : List Event) (s : ManagerState),
    ManagerInv s → ManagerInv (es.foldl stepEvent s)
  | [], _, h => h
  | e :: es, s, h => managerInv_run es _ (managerInv_step s e h)

/-- C1: after any sequence of manager events, at most one live lease is
primary; and destroying a live primary lease releases the mutex, so the next
`get()` call returns a primary lease again. -/
theorem atMostOnePrimary (es : List Event) :
    (primaryLive (run es)).length ≤ 1 ∧
    (∀ l inst, (l, inst) ∈ (run es).live → inst.isPrimary = true →
      (managerGet (stepEvent (run es) (Event.destroy l))).1.isPrimary = true) := by
  obtain ⟨hfresh, hpw, hle, hfree⟩ := managerInv_run es initialManager managerInv_initial
  refine ⟨hle, ?_⟩
  intro l inst hmem hprim
  have hfind : (run es).live.find? (fun p => p.1 = l) = some (l, inst) := by
    cases hq : (run es).live.find? (fun p => p.1 = l) with
    | none =>
      have := List.find?_eq_none.mp hq (l, inst) hmem
      simp at this
    | some q =>
      have hq1 : q.1 = l := by simpa using List.find?_some hq
      have hqm : q ∈ (run es).live := List.mem_of_find?_eq_some hq
      have : q = (l, inst) := pairwise_key_unique hpw hqm hmem (by simpa using hq1)
      rw [this]
  have hprim' : inst.primary_ = true := hprim
  have hdestroy : stepEvent (run es) (Event.destroy l) =
      { run es with live := (run es).live.filter (fun q => q.1 ≠ l),
                    lockHeld := false } := by
    simp only [stepEvent, destroyInstance, hfind, hprim', if_true]
  rw [hdestroy]
  simp [managerGet, SQLiteDBInstance.isPrimary]

/-- C1 witness: after the event sequence `[get]` the single live lease `0`
is primary; destroying it and calling `get()` again returns a primary
lease. -/
theorem atMostOnePrimary_witness :
    (managerGet (stepEvent (run [Event.get]) (Event.destroy 0))).1.isPrimary = true :=
  (atMostOnePrimary [Event.get]).2 0 { primary_ := true, db_ := some 0 }
    (by decide) (by decide)

/-- C4 witness: `isDisabled_iff_member` applied at the spec's example
string, concluding that table `"b"` is disabled under flag `"a, b ,,c"`. -/
theorem isDisabled_iff_member_witness :
    isDisabled (parseDisableTablesFlag "a, b ,,c") "b" = true :=
  (isDisabled_iff_member "a, b ,,c" "b").1.mpr (by decide)

/-! ### Register map and walk lemmas -/

/-- Reading a register just written returns the written type. -/
theorem regGet_cons_hit {w : Int × ColumnType} {regs : List (Int × ColumnType)}
    {r : Int} (h : w.1 = r) : regGet (w :: regs) r = some w.2 := by
  simp [regGet, List.find?_cons_of_pos, h]

/-- Reading past a write to a different register is unchanged. -/
theorem regGet_cons_miss {w : Int × ColumnType} {regs : List (Int × ColumnType)}
    {r : Int} (h : w.1 ≠ r) : regGet (w :: regs) r = regGet regs r := by
  simp [regGet, List.find?_cons_of_neg, h]

/-- A nonempty list always has a last element. -/
theorem getLast?_cons_isSome {α : Type} (a : α) (t : List α) :
    ((a :: t).getLast?).isSome = true := by
  induction t generalizing a with
  | nil => rfl
  | cons b t ih =>
    rw [List.getLast?_cons_cons]
    exact ih b

/-- Prepending a write shifts the default of `lastWriteOr`. -/
theorem lastWriteOr_cons (w : Int × ColumnType) (ws : List (Int × ColumnType))
    (d : Option ColumnType) :
    lastWriteOr (w :: ws) d = lastWriteOr ws (some w.2) := by
  cases ws with
  | nil => simp [lastWriteOr]
  | cons a t =>
    simp only [lastWriteOr, List.getLast?_cons_cons]
    cases h : (a :: t).getLast? with
    | none =>
      have hs := getLast?_cons_isSome a t
      rw [h] at hs
      cases hs
    | some b => rfl

/-- During the walk, the register map always holds, for every register, the
type of the last trace write to that register, falling back to the starting
map when the program never writes it. -/
theorem walk_regs_aux (env : PlanEnv) (r : Int) :
    ∀ (prog : List ProgramStep) (sc : ScanState) (regs : List (Int × ColumnType)),
    regGet (walkProgram env sc regs prog).1 r =
      lastWriteOr ((walkProgram env sc regs prog).2.filter (fun w => w.1 = r))
        (regGet regs r) := by
  intro prog
  induction prog with
  | nil =>
    intro sc regs
    simp [walkProgram, lastWriteOr]
  | cons s rest ih =>
    intro sc regs
    cases hp : (processStep env sc regs s).2 with
    | none =>
      simp only [walkProgram, hp, Option.toList_none, List.nil_append]
      exact ih (processStep env sc regs s).1 regs
    | some w =>
      simp only [walkProgram, hp, Option.toList_some, List.singleton_append]
      by_cases hw : w.1 = r
      · rw [List.filter_cons_of_pos (by simpa using hw), lastWriteOr_cons]
        rw [ih (processStep env sc regs s).1 (w :: regs)]
        rw [regGet_cons_hit hw]
      · rw [List.filter_cons_of_neg (by simpa using hw)]
        rw [ih (processStep env sc regs s).1 (w :: regs)]
        rw [regGet_cons_miss hw]

/-- C5: register bindings are overwritten in program order: for every
register, the type the final register map yields — the one used to resolve
output columns at the end of the walk — is exactly the type of the last
write to that register in the program-order write trace, superseding all
earlier writes. -/
theorem lastWriteWins (p : QueryPlanner) (ops : List (String × Opcode))
    (schema : List (String × List ColumnType)) (r : Int) :
    regGet (p.finalRegs ops schema) r =
      ((p.writeTrace ops schema).filter (fun w => w.1 = r)).getLast?.map
        (fun w => w.2) := by
  have h := walk_regs_aux ⟨ops, schema, p.tables_⟩ r p.program_ {} []
  rw [QueryPlanner.finalRegs, QueryPlanner.writeTrace, h]
  cases hl : ((walkProgram ⟨ops, schema, p.tables_⟩ {} [] p.program_).2.filter
      (fun w => w.1 = r)).getLast? with
  | none => simp [lastWriteOr, hl, regGet]
  | some w => simp [lastWriteOr, hl]

/-! ### Type application lemmas -/

/-- A column type is non-UNKNOWN exactly when `isUnknown` is false. -/
theorem isUnknown_eq_false {t : ColumnType} :
    t.isUnknown = false ↔ t ≠ ColumnType.UNKNOWN_TYPE := by
  cases t <;> simp [ColumnType.isUnknown]

/-- Resolution leaves a column that entered with a known type untouched. -/
theorem resolveColumn_known {m : List (Int × ColumnType)} {c : ColumnInfo}
    (h : c.type ≠ ColumnType.UNKNOWN_TYPE) : resolveColumn m c = c := by
  simp [resolveColumn, h]

/-- Resolution is idempotent on every column. -/
theorem resolveColumn_idem (m : List (Int × ColumnType)) (c : ColumnInfo) :
    resolveColumn m (resolveColumn m c) = resolveColumn m c := by
  by_cases h : c.type = ColumnType.UNKNOWN_TYPE
  · cases hr : regGet m c.outReg with
    | none => simp [resolveColumn, h, hr]
    | some t =>
      by_cases ht : t = ColumnType.UNKNOWN_TYPE
      · subst ht
        simp [resolveColumn, h, hr]
      · simp [resolveColumn, h, hr, ht]
  · simp [resolveColumn, h]

/-- C3: `applyTypes` returns success iff every column that entered with type
UNKNOWN received a non-UNKNOWN type in the output; the output is exactly the
in-place per-column resolution of the input, independent of the overall
status; and every column the final register map does resolve appears
resolved in the output even when the overall return is failure. -/
theorem applyTypes_success_iff (p : QueryPlanner) (ops : List (String × Opcode))
    (schema : List (String × List ColumnType)) (cols : List ColumnInfo) :
    ((p.applyTypes ops schema cols).1 = Status.success ↔
      ∀ (i : Nat) (c : ColumnInfo), cols[i]? = some c →
        c.type = ColumnType.UNKNOWN_TYPE →
        ∃ c', ((p.applyTypes ops schema cols).2)[i]? = some c' ∧
          c'.type ≠ ColumnType.UNKNOWN_TYPE) ∧
    ((p.applyTypes ops schema cols).2 =
      cols.map (resolveColumn (p.finalRegs ops schema))) ∧
    (∀ c ∈ cols, ∀ t, c.type = ColumnType.UNKNOWN_TYPE →
      regGet (p.finalRegs ops schema) c.outReg = some t →
      { c with type := t } ∈ (p.applyTypes ops schema cols).2) := by
  refine ⟨?_, rfl, ?_⟩
  · constructor
    · intro hs i c hc hunk
      have hall : (cols.map (resolveColumn (p.finalRegs ops schema))).all
          (fun c => !c.type.isUnknown) = true := by
        by_contra hno
        simp only [QueryPlanner.applyTypes] at hs
        rw [if_neg hno] at hs
        exact Status.noConfusion hs
      refine ⟨resolveColumn (p.finalRegs ops schema) c, ?_, ?_⟩
      · simp [QueryPlanner.applyTypes, List.getElem?_map, hc]
      · have hmem : resolveColumn (p.finalRegs ops schema) c ∈
            cols.map (resolveColumn (p.finalRegs ops schema)) :=
          List.mem_map.mpr ⟨c, List.getElem?_mem hc, rfl⟩
        have := List.all_eq_true.mp hall _ hmem
        exact isUnknown_eq_false.mp (by simpa using this)
    · intro hres
      have hall : (cols.map (resolveColumn (p.finalRegs ops schema))).all
          (fun c => !c.type.isUnknown) = true := by
        refine List.all_eq_true.mpr ?_
        intro c' hc'
        obtain ⟨c, hcmem, hfc⟩ := List.mem_map.mp hc'
        obtain ⟨i, hi⟩ := List.mem_iff_getElem?.mp hcmem
        by_cases hunk : c.type = ColumnType.UNKNOWN_TYPE
        · obtain ⟨c'', hc'', hne⟩ := hres i c hi hunk
          have hc2 : (cols.map (resolveColumn (p.finalRegs ops schema)))[i]? =
              some c'' := hc''
          rw [List.getElem?_map, hi] at hc2
          simp only [Option.map_some', Option.some.injEq] at hc2
          have hcc : c' = c'' := by rw [← hfc, hc2]
          simp only [Bool.not_eq_true']
          exact isUnknown_eq_false.mpr (hcc ▸ hne)
        · have : c' = c := hfc ▸ resolveColumn_known hunk
          simp only [Bool.not_eq_true']
          exact isUnknown_eq_false.mpr (this ▸ hunk)
      simp [QueryPlanner.applyTypes, hall]
  · intro c hc t hunk hreg
    have : resolveColumn (p.finalRegs ops schema) c = { c with type := t } := by
      simp [resolveColumn, hunk, hreg]
    exact this ▸ List.mem_map.mpr ⟨c, hc, rfl⟩

/-- C3 witness: `applyTypes_success_iff` applied at a concrete planner whose
program resolves register 3 to INTEGER: the overall status is failure (one
column stays UNKNOWN) yet the resolvable column is updated in place. -/
theorem applyTypes_success_iff_witness :
    ({ name := "x", type := ColumnType.INTEGER_TYPE, outReg := 3 } : ColumnInfo) ∈
      (QueryPlanner.applyTypes ⟨[⟨"Integer", 5, 3, 0⟩], []⟩ kSQLOpcodes []
        [⟨"x", ColumnType.UNKNOWN_TYPE, 3⟩, ⟨"y", ColumnType.UNKNOWN_TYPE, 9⟩]).2 :=
  (applyTypes_success_iff ⟨[⟨"Integer", 5, 3, 0⟩], []⟩ kSQLOpcodes []
      [⟨"x", ColumnType.UNKNOWN_TYPE, 3⟩, ⟨"y", ColumnType.UNKNOWN_TYPE, 9⟩]).2.2
    ⟨"x", ColumnType.UNKNOWN_TYPE, 3⟩ (by decide) ColumnType.INTEGER_TYPE
    (by decide) (by decide)

/-- C8: `applyTypes` is deterministic across invocations: applying it a
second time, with the same captured program and table scan order, to the
column sequence produced by the first call yields exactly the same status
and the same type assignment for every column. -/
theorem applyTypes_deterministic (p : QueryPlanner) (ops : List (String × Opcode))
    (schema : List (String × List ColumnType)) (cols : List ColumnInfo) :
    p.applyTypes ops schema (p.applyTypes ops schema cols).2 =
      p.applyTypes ops schema cols := by
  have hmap : (cols.map (resolveColumn (p.finalRegs ops schema))).map
      (resolveColumn (p.finalRegs ops schema)) =
      cols.map (resolveColumn (p.finalRegs ops schema)) := by
    rw [List.map_map]
    exact List.map_congr_left (fun c _ => resolveColumn_idem _ c)
  simp only [QueryPlanner.applyTypes]
  simp only [hmap]

/-! ### Introspection lemmas -/

/-- C6: column introspection on a successfully prepared query returns a
success status and the full ordered column sequence: one output column per
prepared column, in order, keeping the column name; a column with no table
origin is marked UNKNOWN, and a column originating from a table's schema
receives the table's declared type verbatim. -/
theorem getQueryColumns_types (schema : List (String × List ColumnType))
    (pcs : List PreparedColumn) :
    (getQueryColumnsInternal (Except.ok pcs) schema).1 = Status.success ∧
    ((getQueryColumnsInternal (Except.ok pcs) schema).2).length = pcs.length ∧
    (∀ (i : Nat) (pc : PreparedColumn), pcs[i]? = some pc →
      ∃ c, ((getQueryColumnsInternal (Except.ok pcs) schema).2)[i]? = some c ∧
        c.name = pc.name ∧
        (pc.origin = ColumnOrigin.noOrigin → c.type = ColumnType.UNKNOWN_TYPE) ∧
        (∀ t j ty, pc.origin = ColumnOrigin.fromTable t j →
          declaredType schema t j = some ty → c.type = ty)) := by
  refine ⟨rfl, by simp [getQueryColumnsInternal], ?_⟩
  intro i pc hi
  refine ⟨describeColumn schema pc, ?_, ?_, ?_, ?_⟩
  · simp [getQueryColumnsInternal, List.getElem?_map, hi]
  · cases ho : pc.origin with
    | noOrigin => simp [describeColumn, ho]
    | fromTable t j =>
      cases hd : declaredType schema t j with
      | none => simp [describeColumn, ho, hd]
      | some ty => simp [describeColumn, ho, hd]
  · intro ho
    simp [describeColumn, ho]
  · intro t j ty ho hd
    simp [describeColumn, ho, hd]

/-- C6 witness: `getQueryColumns_types` applied at a one-table schema and a
two-column query, one column straight from the table (typed verbatim) and
one expression column (marked UNKNOWN). -/
theorem getQueryColumns_types_witness :
    ∃ c, ((getQueryColumnsInternal
        (Except.ok [⟨"name", ColumnOrigin.fromTable "t" 0, 1⟩,
                    ⟨"x", ColumnOrigin.noOrigin, 2⟩])
        [("t", [ColumnType.TEXT_TYPE])]).2)[0]? = some c ∧
      c.name = "name" ∧
      (ColumnOrigin.fromTable "t" 0 = ColumnOrigin.noOrigin →
        c.type = ColumnType.UNKNOWN_TYPE) ∧
      (∀ t j ty, ColumnOrigin.fromTable "t" 0 = ColumnOrigin.fromTable t j →
        declaredType [("t", [ColumnType.TEXT_TYPE])] t j = some ty →
        c.type = ty) :=
  (getQueryColumns_types [("t", [ColumnType.TEXT_TYPE])]
      [⟨"name", ColumnOrigin.fromTable "t" 0, 1⟩,
       ⟨"x", ColumnOrigin.noOrigin, 2⟩]).2.2 0
    ⟨"name", ColumnOrigin.fromTable "t" 0, 1⟩ (by decide)

end Osquery
